import Mathlib

/-!
Verification development for the `host-mdx` tool (source: src/unnamed/part_000).
The file shallowly embeds the parts of the program the claims are about:

* the rebuild coordinator built from the module flags `isCreatingSite` and
  `isCreateSitePending` inside `createSite` (lines 128-255) and the catch
  handler of `createSiteSafe` (lines 380-393);
* the site builder: the explicit-stack traversal of `createSite`
  (lines 158-234) together with the output-path computation
  `path.format({ ...path.parse(absToOutput), base: '', ext: '.html' })`;
* `getIgnore` (lines 104-115) and `DEFAULT_IGNORES` (lines 24-33), with the
  external `ignore` npm package modelled from the spec;
* the trailing-slash middleware and 404 fallback of `startServer`
  (lines 416-456);
* `isPortAvailable` / `getAvailablePort` (lines 256-284) and the port
  section of `filterArgs` (lines 354-368).
-/

namespace HostMdx

/-! ## Rebuild coordinator

`createSite` (lines 128-255) manipulates two module-level flags.  JavaScript
runs the code between two `await`s atomically, so the coordinator is modelled
as a small-step machine whose steps are those atomic segments:

* `Label.request` — the entry segment of a `createSite` call (lines 129-144):
  if `isCreatingSite` it only sets `isCreateSitePending` and returns;
  otherwise it sets `isCreatingSite := true`, `isCreateSitePending := false`
  and begins a build (counted in `builds`).
* `Label.finish` — the build loop ends (stack exhausted or abandoned because
  the pending flag was set) and line 238 runs: `isCreatingSite = false`.
  The continuation of lines 242-253 is then queued behind the `await` of
  `onSiteCreateEnd` (line 248); the counter `rc` records such queued
  completion continuations.
* `Label.rcheck` — a queued completion continuation runs lines 252-253:
  if `isCreateSitePending` it re-invokes `createSite`, whose entry segment
  runs immediately (lines 129-139).
* `Label.fail` — an exception thrown while the build loop is running
  propagates to `createSiteSafe`'s catch (lines 386-390), which only sets
  `isCreatingSite = false` (the pending flag is left untouched and no
  completion continuation is queued).

`phase = .building` is exactly `isCreatingSite = true`; `pending` is
`isCreateSitePending`; `builds` counts build starts.
-/

inductive Phase where
  | idle
  | building
deriving DecidableEq, Repr

structure Coord where
  phase : Phase
  pending : Bool
  builds : Nat
  rc : Nat
deriving DecidableEq, Repr

inductive Label where
  | request
  | finish
  | rcheck
  | fail
deriving DecidableEq, Repr

/-- `isCreatingSite` read off the model state. -/
def inProgress (s : Coord) : Bool :=
  decide (s.phase = Phase.building)

/-- One atomic segment of the coordinator; `none` when the segment is not
enabled in the given state. -/
def stepFn (s : Coord) : Label → Option Coord
  | Label.request =>
    match s.phase with
    | Phase.building => some { s with pending := true }
    | Phase.idle =>
      some { s with phase := Phase.building, pending := false, builds := s.builds + 1 }
  | Label.finish =>
    match s.phase with
    | Phase.building => some { s with phase := Phase.idle, rc := s.rc + 1 }
    | Phase.idle => none
  | Label.rcheck =>
    match s.rc with
    | 0 => none
    | r + 1 =>
      if s.pending then
        match s.phase with
        | Phase.idle =>
          some { phase := Phase.building, pending := false, builds := s.builds + 1, rc := r }
        | Phase.building =>
          -- re-entered `createSite` finds `isCreatingSite` true and only
          -- re-asserts the (already true) pending flag
          some { s with rc := r }
      else
        some { s with rc := r }
  | Label.fail =>
    match s.phase with
    | Phase.building => some { s with phase := Phase.idle }
    | Phase.idle => none

/-- Run a schedule of atomic segments. -/
def run (s : Coord) : List Label → Option Coord
  | [] => some s
  | l :: ls => (stepFn s l).bind fun t => run t ls

/-- The initial state: both flags false (lines 65-66). -/
def coordInit : Coord :=
  { phase := Phase.idle, pending := false, builds := 0, rc := 0 }

/-- No internal step (`finish` or `rcheck`) is enabled: nothing is running and
no completion continuation is queued. -/
def Quiescent (s : Coord) : Prop :=
  s.phase = Phase.idle ∧ s.rc = 0

/-- The (unique) state after three rapid `requestBuild` calls from Idle. -/
def afterThree : Coord :=
  { phase := Phase.building, pending := true, builds := 1, rc := 0 }

/-- Steps that belong to the coordinator itself (completions of a running
build), as opposed to external trigger calls. -/
def Internal (l : Label) : Prop :=
  l = Label.finish ∨ l = Label.rcheck

instance (l : Label) : Decidable (Internal l) := by
  unfold Internal
  infer_instance

instance (s : Coord) : Decidable (Quiescent s) := by
  unfold Quiescent
  infer_instance

/-- States reachable from `afterThree` by internal steps only. -/
def chainStates : List Coord :=
  [ { phase := Phase.building, pending := true, builds := 1, rc := 0 },
    { phase := Phase.idle, pending := true, builds := 1, rc := 1 },
    { phase := Phase.building, pending := false, builds := 2, rc := 0 },
    { phase := Phase.idle, pending := false, builds := 2, rc := 1 },
    { phase := Phase.idle, pending := false, builds := 2, rc := 0 } ]

/-- Boolean check that a step stays inside `chainStates`. -/
def stepKeepsChain (s : Coord) (l : Label) : Bool :=
  match stepFn s l with
  | none => true
  | some t => chainStates.contains t

/-! ## Site builder

The traversal of `createSite` (lines 158-234).  The input tree is a finite
tree of named entries; paths are lists of segments relative to the input
root (the root itself is `[]`, matching `path.relative(inputPath,
currentPath) = ""`).  The ignore matcher is abstracted as a predicate on
relative paths, and the mdx renderer (`mdxToHtml`, an external module) as a
function on file contents.  The `while` loop is modelled with a fuel
parameter solely to make the recursion structural; every claim proved below
is either universally quantified over the fuel or evaluated at a fuel large
enough for the loop to run to completion.
-/

inductive FsNode where
  | file (content : String)
  | dir (children : List (String × FsNode))

/-- Resolve a relative path in the tree (models `fs.existsSync` /
`fs.statSync` / `fs.readFileSync` / `fs.readdirSync` against a fixed input
tree). -/
def lookup : List String → FsNode → Option FsNode
  | [], n => some n
  | s :: rest, FsNode.dir cs =>
    match cs.find? (fun c => c.1 == s) with
    | some c => lookup rest c.2
    | none => none
  | _ :: _, FsNode.file _ => none

/-- `s.endsWith suf` over the character data. -/
def strEndsWith (s suf : String) : Bool :=
  decide (suf.data.length ≤ s.data.length) &&
    (s.data.drop (s.data.length - suf.data.length) == suf.data)

/-- `s` with its last `n` characters removed (Node `path.parse`'s `name`
field when `n` is the extension length). -/
def strDropRight (s : String) (n : Nat) : String :=
  String.mk (s.data.take (s.data.length - n))

/-- The basename used by the `currentPath.endsWith(".mdx")` test and by
`path.parse` (the last path segment; `""` for the root, which is always a
directory in a real run because `filterArgs` rejects non-directory inputs). -/
def lastSeg (rel : List String) : String :=
  rel.getLast?.getD ""

/-- Output basename of an mdx document, embedding
`path.format({ ...path.parse(p), base: '', ext: '.html' })` for a basename
`s` that ends in `".mdx"`: Node's `path.parse` puts the extension at the
last dot of the basename unless that dot is its first character, so
`s = ".mdx"` keeps its full name (`ext` is empty, `name` is `".mdx"`), and
any longer name loses the 4-character extension. -/
def htmlOutName (s : String) : String :=
  if s = ".mdx" then s ++ ".html" else strDropRight s 4 ++ ".html"

/-- Output path of an mdx document: `path.format` keeps the directory part
and replaces the basename. -/
def mapMdx (rel : List String) : List String :=
  rel.dropLast ++ [htmlOutName (lastSeg rel)]

/-- One materialized unit of output: `fs.mkdirSync absToOutput` (line 186),
`createFile absHtmlPath html` (line 208), or `fs.copyFileSync` (line 218). -/
inductive OutAction where
  | mkdirA (rel : List String)
  | htmlA (rel : List String) (content : String)
  | copyA (rel : List String) (content : String)
deriving DecidableEq, Repr

/-- The output path an action materializes. -/
def actRel : OutAction → List String
  | OutAction.mkdirA r => r
  | OutAction.htmlA r _ => r
  | OutAction.copyA r _ => r

/-- The `while` loop of `createSite` (lines 160-234).  The JS array `stack`
is popped from and pushed to at its end; the model keeps the top of the
stack at the head of the list, so a directory's children (`readdirSync`
order) are pushed by prepending their reversal.  Each iteration:
skip a missing path; compute `toIgnore = inputPath != currentPath &&
ig.ignores(relToInput)` and skip when set; otherwise `mkdir` a directory and
enqueue its children, render a `.mdx` file to its mapped path wrapped in the
`<!DOCTYPE html>` envelope (line 208), or copy any other file unchanged. -/
def buildLoop (root : FsNode) (ig : List String → Bool) (render : String → String) :
    Nat → List (List String) → List OutAction → List OutAction
  | 0, _, acc => acc
  | fuel + 1, stack, acc =>
    match stack with
    | [] => acc
    | cur :: rest =>
      match lookup cur root with
      | none => buildLoop root ig render fuel rest acc
      | some node =>
        if !cur.isEmpty && ig cur then
          buildLoop root ig render fuel rest acc
        else
          match node with
          | FsNode.dir cs =>
            buildLoop root ig render fuel
              ((cs.map (fun c => cur ++ [c.1])).reverse ++ rest)
              (acc ++ [OutAction.mkdirA cur])
          | FsNode.file content =>
            if strEndsWith (lastSeg cur) ".mdx" then
              buildLoop root ig render fuel rest
                (acc ++ [OutAction.htmlA (mapMdx cur) ("<!DOCTYPE html>\n" ++ render content)])
            else
              buildLoop root ig render fuel rest
                (acc ++ [OutAction.copyA cur content])

/-- One full (uninterrupted) build: the stack is seeded with the input root
(line 159) and the accumulated outputs start empty. -/
def createSiteB (fuel : Nat) (root : FsNode) (ig : List String → Bool)
    (render : String → String) : List OutAction :=
  buildLoop root ig render fuel [[]] []

/-- `p` is strictly below `d` (i.e. `p` is inside the directory `d`). -/
def isUnder (d p : List String) : Bool :=
  decide (d.length < p.length) && (p.take d.length == d)

/-- What `createSite` guarantees of each emitted action (the per-entry
branches at lines 182-220): directories and plain files are materialized at
their own relative paths; `.mdx` files at `mapMdx` of theirs, with the
`<!DOCTYPE html>` envelope around the rendered content. -/
def ActionOK (root : FsNode) (ig : List String → Bool) (render : String → String) :
    OutAction → Prop
  | OutAction.mkdirA rel =>
    (∃ cs, lookup rel root = some (FsNode.dir cs)) ∧ (rel = [] ∨ ig rel = false)
  | OutAction.htmlA outp content =>
    ∃ rel c, lookup rel root = some (FsNode.file c) ∧
      strEndsWith (lastSeg rel) ".mdx" = true ∧
      (rel = [] ∨ ig rel = false) ∧
      outp = mapMdx rel ∧
      content = "<!DOCTYPE html>\n" ++ render c
  | OutAction.copyA rel content =>
    ∃ c, lookup rel root = some (FsNode.file c) ∧
      strEndsWith (lastSeg rel) ".mdx" = false ∧
      (rel = [] ∨ ig rel = false) ∧
      content = c

/-- The input tree of the traversal-completeness example:
`{a.mdx, b.png, sub/c.mdx}`. -/
def exampleTree : FsNode :=
  FsNode.dir
    [ ("a.mdx", FsNode.file "A"),
      ("b.png", FsNode.file "B"),
      ("sub", FsNode.dir [("c.mdx", FsNode.file "C")]) ]

/-- A tree holding a file literally named `.mdx`. -/
def bareMdxTree : FsNode :=
  FsNode.dir [(".mdx", FsNode.file "X")]

/-- Input tree for the pruning example: an ignored directory with a child
that the matcher does not match on its own. -/
def prunedTree : FsNode :=
  FsNode.dir
    [ ("secret", FsNode.dir [("inner.txt", FsNode.file "x")]),
      ("a.txt", FsNode.file "y") ]

/-- A matcher that matches only the directory `secret` itself, not its
children taken alone. -/
def prunedIg (rel : List String) : Bool :=
  decide (rel = ["secret"])

/-! ## Ignore rules

`getIgnore` (lines 104-115) concatenates `DEFAULT_IGNORES` with the user's
ignore-file contents and hands the string to the `ignore` npm package.  The
package is an external dependency (not under src/), so its matching is
modelled from the spec: gitignore semantics, where the rules apply in order,
`!` negates, the last matching rule wins, and a slash-free literal pattern
matches any path with a component of that name.  Wildcards and anchored
patterns are not needed by the defaults or the claims and are not
modelled. -/

/-- Split a character list at every separator (the package splits the rule
string at line breaks). -/
def splitCharAux (sep : Char) : List Char → List Char → List (List Char)
  | [], cur => [cur.reverse]
  | c :: cs, cur =>
    if c = sep then cur.reverse :: splitCharAux sep cs []
    else splitCharAux sep cs (c :: cur)

/-- Split a string at a separator character (JS `String.prototype.split`). -/
def splitChar (sep : Char) (s : String) : List String :=
  (splitCharAux sep s.data []).map String.mk

/-- One compiled rule: a plain pattern or a `!`-negation. -/
inductive IgRule where
  | ignoreP (body : String)
  | negP (body : String)
deriving DecidableEq, Repr

/-- Modelled from the spec: parse one line of a gitignore-style rule list
(blank lines and `#` comments are skipped; a leading `!` marks a
negation). -/
def parseRule (line : String) : Option IgRule :=
  match line.data with
  | [] => none
  | c :: rest =>
    if c = '#' then none
    else if c = '!' then some (IgRule.negP (String.mk rest))
    else some (IgRule.ignoreP line)

/-- Compile a list of lines to the ordered rule list. -/
def parseRules (lines : List String) : List IgRule :=
  lines.filterMap parseRule

def ruleBody : IgRule → String
  | IgRule.ignoreP b => b
  | IgRule.negP b => b

/-- Modelled from the spec: a slash-free literal pattern matches a relative
path whenever some component equals it (a gitignore pattern without `/`
applies at every depth). -/
def bodyMatches (b : String) (rel : List String) : Bool :=
  rel.contains b

def ruleMatches (r : IgRule) (rel : List String) : Bool :=
  bodyMatches (ruleBody r) rel

/-- One gitignore evaluation step: a matching rule overrides the
accumulated verdict (`true` for a plain pattern, `false` for a negation);
a non-matching rule leaves it. -/
def igStep (rel : List String) (acc : Bool) (r : IgRule) : Bool :=
  if ruleMatches r rel then
    match r with
    | IgRule.ignoreP _ => true
    | IgRule.negP _ => false
  else acc

/-- Modelled from the spec: gitignore evaluation — scan the rules in order,
the last matching rule decides, a negation un-ignores. -/
def igMatches (rules : List IgRule) (rel : List String) : Bool :=
  rules.foldl (igStep rel) false

/-- The `DEFAULT_IGNORES` template literal (lines 24-33): a leading line
break, the tool's own ignore/config file names, package-manager and VCS
artifacts, and a trailing line break. -/
def DEFAULT_IGNORES : String :=
  "\n.hostmdxignore\nhost-mdx.js\nnode_modules\npackage-lock.json\npackage.json\n.git\n.github\n.gitignore\n"

/-- `getIgnore`'s rule text (lines 106-110): the defaults, followed — when
the ignore file exists — by a line break and the file's contents. -/
def getIgnoreContent (userContent : Option String) : String :=
  DEFAULT_IGNORES ++
    match userContent with
    | some u => "\n" ++ u
    | none => ""

/-- The compiled matcher of `getIgnore` (line 112's `ig.add(ignoreContent)`):
the concatenated text split into lines and parsed in order. -/
def getIgnore (userContent : Option String) : List IgRule :=
  parseRules (splitChar '\n' (getIgnoreContent userContent))

/-- The matcher used by a build with no user ignore file, as a predicate on
relative segment paths. -/
def defaultMatcher (rel : List String) : Bool :=
  igMatches (getIgnore none) rel

/-! ## Dev server

`startServer` (lines 416-456) chains, in order: the trailing-slash
middleware (lines 439-445), the `sirv` asset handler, and polka's
`onNoMatch` 404 fallback (lines 425-438).  `path.extname` is embedded by
transcribing Node's scanning algorithm.  `sirv` is abstracted as a lookup
from the request path to served file content. -/

structure ExtSt where
  startDot : Int
  startPart : Nat
  endIdx : Int
  matchedSlash : Bool
  preDotState : Int

/-- Node `path.posix.extname`'s right-to-left scan; the `Nat` argument is
one past the index to inspect next. -/
def extScan (cs : List Char) : Nat → ExtSt → ExtSt
  | 0, st => st
  | i + 1, st =>
    let c := cs.getD i ' '
    if c = '/' then
      if st.matchedSlash = false then { st with startPart := i + 1 }
      else extScan cs i st
    else
      let st1 :=
        if st.endIdx = -1 then { st with matchedSlash := false, endIdx := (i : Int) + 1 }
        else st
      let st2 :=
        if c = '.' then
          if st1.startDot = -1 then { st1 with startDot := (i : Int) }
          else if st1.preDotState ≠ 1 then { st1 with preDotState := 1 }
          else st1
        else if st1.startDot ≠ -1 then { st1 with preDotState := -1 }
        else st1
      extScan cs i st2

/-- Node `path.extname` (posix): empty for no dot, a leading dot, or a
bare `..`-style basename; otherwise the basename from its last dot on. -/
def nodeExtname (p : String) : String :=
  let cs := p.data
  let st := extScan cs cs.length
    { startDot := -1, startPart := 0, endIdx := -1, matchedSlash := true, preDotState := 0 }
  if st.startDot = -1 ∨ st.endIdx = -1 ∨ st.preDotState = 0 ∨
      (st.preDotState = 1 ∧ st.startDot = st.endIdx - 1 ∧ st.startDot = (st.startPart : Int) + 1) then
    ""
  else
    String.mk ((cs.drop st.startDot.toNat).take (st.endIdx.toNat - st.startDot.toNat))

/-- The middleware guard (line 440):
`1 < req.path.length && !req.path.endsWith('/') && !path.extname(req.path)`
(an empty extension string is falsy). -/
def redirectDecision (p : String) : Bool :=
  decide (1 < p.length) && !(strEndsWith p "/") && (nodeExtname p == "")

inductive MwStep where
  | redirect (loc : String)
  | next
deriving DecidableEq, Repr

/-- The trailing-slash middleware (lines 439-445): a 301 with
`Location: req.path + '/'` when the guard holds, otherwise fall through. -/
def trailingSlashMw (p : String) : MwStep :=
  if redirectDecision p then MwStep.redirect (p ++ "/") else MwStep.next

inductive HttpResp where
  | okR (body : String)
  | movedR (loc : String)
  | notFoundR (body : String)
deriving DecidableEq, Repr

/-- The request pipeline of `startServer`: the middleware decides first;
only then are the assets consulted (`sirv`, abstracted as a path-to-content
lookup), and a miss falls to `onNoMatch`, which serves the `404.html` file
when present and the fixed `"404"` body otherwise (lines 425-438). -/
def handleRequest (assets : String → Option String) (err404 : Option String)
    (p : String) : HttpResp :=
  match trailingSlashMw p with
  | MwStep.redirect loc => HttpResp.movedR loc
  | MwStep.next =>
    match assets p with
    | some body => HttpResp.okR body
    | none => HttpResp.notFoundR (err404.getD "404")

/-! ## Port negotiation

`isPortAvailable` (lines 256-272) binds a throwaway listener; the listener's
outcome is abstracted as an availability oracle, while the order of the
socket events is kept so that the close-before-resolve behaviour is
visible.  `getAvailablePort` (lines 273-284) scans the range; its `while`
loop is embedded with a fuel that is exactly the number of remaining
candidate ports. -/

inductive ProbeEvent where
  | listenE (port : Nat)
  | listeningE
  | errorE
  | closeE
  | resolveE (r : Bool)
deriving DecidableEq, Repr

/-- The event order of one probe: on `error` the handler calls
`server.close()` and then `resolve(false)`; on `listening` it calls
`server.close(cb)` and `resolve(true)` runs in the close callback — in both
branches the listener is closed before the promise resolves. -/
def probeEvents (avail : Nat → Bool) (port : Nat) : List ProbeEvent :=
  if avail port then
    [ProbeEvent.listenE port, ProbeEvent.listeningE, ProbeEvent.closeE, ProbeEvent.resolveE true]
  else
    [ProbeEvent.listenE port, ProbeEvent.errorE, ProbeEvent.closeE, ProbeEvent.resolveE false]

/-- The value `isPortAvailable(port)` resolves to. -/
def isPortAvailable (avail : Nat → Bool) (port : Nat) : Bool :=
  avail port

/-- The `while (currentPort <= maxPort)` loop, with fuel `maxPort + 1 -
currentPort` supplied by `getAvailablePort` (the loop runs at most that many
iterations, so the fuel never runs out first). -/
def portSearch (avail : Nat → Bool) : Nat → Nat → Nat → Int
  | 0, _, _ => -1
  | f + 1, cur, maxp =>
    if cur ≤ maxp then
      if isPortAvailable avail cur then (cur : Int)
      else portSearch avail f (cur + 1) maxp
    else -1

/-- `getAvailablePort(startPort, maxPort)`: first bindable port in the
range, else `-1`. -/
def getAvailablePort (avail : Nat → Bool) (startPort maxPort : Nat) : Int :=
  portSearch avail (maxPort + 1 - startPort) startPort maxPort

/-! ## Port flag handling in `filterArgs`

Lines 354-368: the first raw argument starting with `--port` supplies the
port via `Number(arg.split('=')[1])`; otherwise the bounded range
`DEFAULT_PORT..MAX_PORT` is probed.  The checks then run in order:
`port === -1` reports the no-available-ports error, a non-integer reports
an invalid port. -/

def DEFAULT_PORT : Nat := 3000
def MAX_PORT : Nat := 3002

def strStartsWith (s t : String) : Bool :=
  s.data.take t.data.length == t.data

/-- `arg.split('=')[1]` — `none` when there is no `=` (JS `undefined`). -/
def splitEqSecond (s : String) : Option String :=
  (splitChar '=' s).get? 1

inductive JsNumV where
  | intV (n : Int)
  | nonIntV
deriving DecidableEq, Repr

def allDigits (cs : List Char) : Bool :=
  cs.all (fun c => c.isDigit)

def natOfDigits (cs : List Char) : Nat :=
  cs.foldl (fun a c => a * 10 + (c.toNat - '0'.toNat)) 0

/-- JS `Number(x)` restricted to the shapes the port flag can take: absence
(`undefined` → NaN), the empty string (0), and decimal integer literals with
an optional sign.  Any other string is conservatively mapped to `nonIntV`;
the claims only involve integer literals, for which the model agrees with
JS (`Number.isInteger` fails on NaN and non-integers alike). -/
def jsNumber : Option String → JsNumV
  | none => JsNumV.nonIntV
  | some s =>
    match s.data with
    | [] => JsNumV.intV 0
    | c :: rest =>
      if c = '-' then
        if rest ≠ [] ∧ allDigits rest then JsNumV.intV (-(natOfDigits rest : Int))
        else JsNumV.nonIntV
      else if allDigits (c :: rest) then JsNumV.intV (natOfDigits (c :: rest))
      else JsNumV.nonIntV

inductive PortOutcome where
  | okP (port : Int)
  | errNoPorts
  | errInvalidPort
deriving DecidableEq, Repr

/-- The checks of lines 361-368, run on the port value however it was
obtained: `port === -1` reports the no-available-ports error first, then a
non-integer (NaN included) reports an invalid port, else the port is
accepted. -/
def portCheck (v : JsNumV) : PortOutcome :=
  match v with
  | JsNumV.intV n => if n = -1 then PortOutcome.errNoPorts else PortOutcome.okP n
  | JsNumV.nonIntV => PortOutcome.errInvalidPort

/-- The port section of `filterArgs` (lines 354-368): the first argument
starting with `--port` supplies the value via `Number(arg.split('=')[1])`;
with no such flag the bounded range is probed; either way the same checks
run on the result. -/
def portSection (rawArgs : List String) (avail : Nat → Bool) : PortOutcome :=
  match rawArgs.find? (fun v => strStartsWith v "--port") with
  | some a => portCheck (jsNumber (splitEqSecond a))
  | none => portCheck (JsNumV.intV (getAvailablePort avail DEFAULT_PORT MAX_PORT))

/-! ## Theorems: rebuild coordinator (C1, C2, C6) -/

theorem chain_closed : ∀ s ∈ chainStates, ∀ l ∈ [Label.finish, Label.rcheck],
    stepKeepsChain s l = true := by decide

theorem chain_quiescent_builds : ∀ s ∈ chainStates,
    s.phase = Phase.idle → s.rc = 0 → s.builds = 2 := by decide

theorem run_chain : ∀ ls : List Label, (∀ l ∈ ls, Internal l) →
    ∀ s, s ∈ chainStates → ∀ t, run s ls = some t → Quiescent t → t.builds = 2 := by
  intro ls
  induction ls with
  | nil =>
    intro _ s hs t ht hq
    simp only [run, Option.some.injEq] at ht
    subst ht
    exact chain_quiescent_builds s hs hq.1 hq.2
  | cons l ls ih =>
    intro hint s hs t ht hq
    cases hst : stepFn s l with
    | none => simp [run, hst] at ht
    | some s2 =>
      simp only [run, hst, Option.bind_some] at ht
      have hl : l ∈ [Label.finish, Label.rcheck] := by
        rcases hint l (List.mem_cons_self l ls) with h | h <;> simp [h]
      have hk := chain_closed s hs l hl
      simp only [stepKeepsChain, hst] at hk
      have hs2 : s2 ∈ chainStates := by simpa using hk
      exact ih (fun x hx => hint x (List.mem_cons_of_mem l hx)) s2 hs2 t ht hq

/-- C1: three `requestBuild` calls (`createSite` invocations) in rapid
succession from Idle give exactly two builds: the first starts a build, the
second sets the pending flag, the third changes nothing, and every run of
the remaining internal steps (build completions and completion
continuations) that reaches quiescence has started exactly two builds — and
such a run exists, so the count is never three and never zero. -/
theorem coalescing_three_requests :
    run coordInit [Label.request]
      = some { phase := Phase.building, pending := false, builds := 1, rc := 0 }
    ∧ run coordInit [Label.request, Label.request] = some afterThree
    ∧ stepFn afterThree Label.request = some afterThree
    ∧ run coordInit [Label.request, Label.request, Label.request] = some afterThree
    ∧ (∀ ls : List Label, (∀ l ∈ ls, Internal l) →
        ∀ t, run afterThree ls = some t → Quiescent t → t.builds = 2)
    ∧ (∃ ls : List Label, (∀ l ∈ ls, Internal l) ∧
        ∃ t, run afterThree ls = some t ∧ Quiescent t ∧ t.builds = 2) := by
  refine ⟨by decide, by decide, by decide, by decide, ?_, ?_⟩
  · intro ls hint t ht hq
    exact run_chain ls hint afterThree (by decide) t ht hq
  · exact ⟨[Label.finish, Label.rcheck, Label.finish, Label.rcheck], by decide,
      { phase := Phase.idle, pending := false, builds := 2, rc := 0 }, by decide, by decide, rfl⟩

theorem coalescing_three_requests_witness :
    ({ phase := Phase.idle, pending := false, builds := 2, rc := 0 } : Coord).builds = 2 :=
  coalescing_three_requests.2.2.2.2.1
    [Label.finish, Label.rcheck, Label.finish, Label.rcheck] (by decide)
    { phase := Phase.idle, pending := false, builds := 2, rc := 0 } (by decide) (by decide)

theorem step_preserves_window (s t : Coord) (l : Label)
    (hl : l ≠ Label.fail) (h : stepFn s l = some t)
    (_hs : s.pending = true → s.phase = Phase.building ∨ 1 ≤ s.rc) :
    t.pending = true → t.phase = Phase.building ∨ 1 ≤ t.rc := by
  cases l with
  | request =>
    cases hp : s.phase with
    | idle =>
      simp only [stepFn, hp, Option.some.injEq] at h
      subst h
      intro hpend
      simp at hpend
    | building =>
      simp only [stepFn, hp, Option.some.injEq] at h
      subst h
      intro _
      exact Or.inl rfl
  | finish =>
    cases hp : s.phase with
    | idle => simp [stepFn, hp] at h
    | building =>
      simp only [stepFn, hp, Option.some.injEq] at h
      subst h
      intro _
      refine Or.inr ?_
      show 1 ≤ s.rc + 1
      omega
  | rcheck =>
    cases hr : s.rc with
    | zero => simp [stepFn, hr] at h
    | succ r =>
      cases hpend : s.pending with
      | false =>
        simp only [stepFn, hr, hpend, Bool.false_eq_true, if_false, Option.some.injEq] at h
        subst h
        intro ht
        simp [hpend] at ht
      | true =>
        cases hp : s.phase with
        | idle =>
          simp only [stepFn, hr, hpend, if_true, hp, Option.some.injEq] at h
          subst h
          intro _
          exact Or.inl rfl
        | building =>
          simp only [stepFn, hr, hpend, if_true, hp, Option.some.injEq] at h
          subst h
          intro _
          exact Or.inl rfl
  | fail => exact absurd rfl hl

theorem run_preserves_window : ∀ (ls : List Label) (s t : Coord), Label.fail ∉ ls →
    run s ls = some t → (s.pending = true → s.phase = Phase.building ∨ 1 ≤ s.rc) →
    (t.pending = true → t.phase = Phase.building ∨ 1 ≤ t.rc) := by
  intro ls
  induction ls with
  | nil =>
    intro s t _ ht hs
    simp only [run, Option.some.injEq] at ht
    subst ht
    exact hs
  | cons l ls ih =>
    intro s t hnf ht hs
    cases hst : stepFn s l with
    | none => simp [run, hst] at ht
    | some s2 =>
      simp only [run, hst, Option.bind_some] at ht
      have hl : l ≠ Label.fail := fun he => hnf (he ▸ List.mem_cons_self l ls)
      exact ih s2 t (fun hm => hnf (List.mem_cons_of_mem l hm)) ht
        (step_preserves_window s s2 l hl hst hs)

/-- C2 counterexample: after `request, request, finish` — a build starts, a
rerun is requested during it, and the build's loop ends, executing line
238's `isCreatingSite = false` — the program sits at the `await` of
`onSiteCreateEnd` (line 248) in a reachable state with
`isCreateSitePending = true` while `isCreatingSite = false`.  The coalesced
rebuild (line 253) therefore starts from `inProgress = false`, so the state
does pass through `inProgress = false` between completion and restart,
contradicting the claim. -/
theorem pending_without_in_progress_cex :
    run coordInit [Label.request, Label.request, Label.finish]
      = some { phase := Phase.idle, pending := true, builds := 1, rc := 1 }
    ∧ inProgress { phase := Phase.idle, pending := true, builds := 1, rc := 1 } = false
    ∧ ({ phase := Phase.idle, pending := true, builds := 1, rc := 1 } : Coord).pending = true := by
  decide

/-- C2 amended: in every state reachable without build failures,
`pendingRerun = true` implies that either a build is in progress or a
completion continuation is queued (`1 ≤ rc`) — i.e. the flags can disagree
only in the window between a completed build's `isCreatingSite = false`
(line 238) and its queued recheck (lines 252-253); and from any such window
state the recheck immediately starts the coalesced rebuild (clearing the
pending flag and incrementing the build count), rather than remaining idle.
The code does pass through `inProgress = false` at that hand-off. -/
theorem pending_completion_window (ls : List Label) (s : Coord)
    (hnf : Label.fail ∉ ls) (hrun : run coordInit ls = some s) :
    (s.pending = true → inProgress s = true ∨ 1 ≤ s.rc)
    ∧ (s.phase = Phase.idle → s.pending = true →
        stepFn s Label.rcheck
          = some { phase := Phase.building, pending := false,
                   builds := s.builds + 1, rc := s.rc - 1 }) := by
  have hinv := run_preserves_window ls coordInit s hnf hrun
    (by intro h; simp [coordInit] at h)
  constructor
  · intro hp
    rcases hinv hp with h | h
    · left; simp [inProgress, h]
    · right; exact h
  · intro hidle hp
    rcases hinv hp with h | h
    · rw [hidle] at h; exact absurd h (by decide)
    · obtain ⟨r, hr⟩ : ∃ r, s.rc = r + 1 := ⟨s.rc - 1, by omega⟩
      rw [show s.rc - 1 = r from by omega]
      simp [stepFn, hr, hp, hidle]

theorem pending_completion_window_witness :
    stepFn { phase := Phase.idle, pending := true, builds := 1, rc := 1 } Label.rcheck
      = some { phase := Phase.building, pending := false, builds := 2, rc := 0 } :=
  (pending_completion_window [Label.request, Label.request, Label.finish]
    { phase := Phase.idle, pending := true, builds := 1, rc := 1 }
    (by decide) (by decide)).2 rfl rfl

/-- C6 counterexample: a build during which a rerun was requested throws
(`request, request, fail`).  `createSiteSafe`'s catch (lines 386-390) only
resets `isCreatingSite`, so the coordinator is left quiescent with
`isCreateSitePending` still `true` and only 1 build ever started — whereas
the same schedule with a normal completion (`request, request, finish,
rcheck`) starts the coalesced second build.  The post-failure state is
therefore not "as if the build had completed" with Building-with-pending
handling: the pending rerun is dropped. -/
theorem failed_build_drops_pending_cex :
    run coordInit [Label.request, Label.request, Label.fail]
      = some { phase := Phase.idle, pending := true, builds := 1, rc := 0 }
    ∧ Quiescent { phase := Phase.idle, pending := true, builds := 1, rc := 0 }
    ∧ ({ phase := Phase.idle, pending := true, builds := 1, rc := 0 } : Coord).builds = 1
    ∧ run coordInit [Label.request, Label.request, Label.finish, Label.rcheck]
      = some { phase := Phase.building, pending := false, builds := 2, rc := 0 } := by
  decide

/-- C6 amended: when a build throws, the error is caught by
`createSiteSafe`; the only coordinator effect is `isCreatingSite = false`
(the pending flag and queued continuations are untouched, so a rerun
requested during the failed build is NOT started automatically), and a
subsequent `requestBuild` call is not blocked: it immediately starts a new
build. -/
theorem failure_resets_coordinator (s : Coord) (h : s.phase = Phase.building) :
    stepFn s Label.fail = some { s with phase := Phase.idle }
    ∧ ({ s with phase := Phase.idle } : Coord).pending = s.pending
    ∧ ({ s with phase := Phase.idle } : Coord).rc = s.rc
    ∧ stepFn { s with phase := Phase.idle } Label.request
      = some { s with phase := Phase.building, pending := false, builds := s.builds + 1 } := by
  refine ⟨by simp [stepFn, h], rfl, rfl, by simp [stepFn]⟩

theorem failure_resets_coordinator_witness :
    stepFn { phase := Phase.idle, pending := true, builds := 1, rc := 0 } Label.request
      = some { phase := Phase.building, pending := false, builds := 2, rc := 0 } :=
  (failure_resets_coordinator
    { phase := Phase.building, pending := true, builds := 1, rc := 0 } rfl).2.2.2

/-! ## Theorems: site builder (C3, C4) -/

theorem isUnder_iff (d p : List String) :
    isUnder d p = true ↔ d.length < p.length ∧ p.take d.length = d := by
  simp [isUnder]

theorem isUnder_nil (d : List String) : isUnder d [] = false := by
  simp [isUnder]

theorem isUnder_child (d cur : List String) (c : String)
    (hne : cur ≠ d) (hcur : isUnder d cur = false) :
    isUnder d (cur ++ [c]) = false := by
  rw [Bool.eq_false_iff]
  intro h1
  rw [isUnder_iff] at h1
  obtain ⟨hlen, htake⟩ := h1
  simp only [List.length_append, List.length_cons, List.length_nil] at hlen
  rcases Nat.lt_or_ge d.length cur.length with hlt | hge
  · rw [List.take_append_of_le_length (Nat.le_of_lt hlt)] at htake
    have hu : isUnder d cur = true := (isUnder_iff d cur).mpr ⟨hlt, htake⟩
    rw [hcur] at hu
    cases hu
  · have heq : d.length = cur.length := by omega
    rw [heq, List.take_left] at htake
    exact hne htake

theorem mapMdx_length (rel : List String) (h : rel ≠ []) :
    (mapMdx rel).length = rel.length := by
  have hp : 0 < rel.length := List.length_pos.mpr h
  simp only [mapMdx, List.length_append, List.length_dropLast, List.length_cons,
    List.length_nil]
  omega

theorem take_mapMdx (d rel : List String) (h : d.length < rel.length) :
    (mapMdx rel).take d.length = rel.take d.length := by
  have hle : d.length ≤ rel.dropLast.length := by
    simp only [List.length_dropLast]
    omega
  rw [mapMdx, List.take_append_of_le_length hle, List.dropLast_eq_take rel,
    List.take_take]
  rw [Nat.min_eq_left (by omega)]

theorem isUnder_mapMdx (d rel : List String) (hne : d ≠ []) :
    isUnder d (mapMdx rel) = isUnder d rel := by
  rcases eq_or_ne rel [] with h | h
  · subst h
    rw [isUnder_nil, Bool.eq_false_iff]
    intro hc
    obtain ⟨hlen, _⟩ := (isUnder_iff _ _).mp hc
    have hd : 0 < d.length := List.length_pos.mpr hne
    simp only [mapMdx, List.dropLast_nil, List.nil_append, List.length_cons,
      List.length_nil] at hlen
    omega
  · cases hcmp : isUnder d rel with
    | true =>
      rw [isUnder_iff]
      obtain ⟨h1, h2⟩ := (isUnder_iff d rel).mp hcmp
      refine ⟨by rw [mapMdx_length rel h]; exact h1, ?_⟩
      rw [take_mapMdx d rel h1]
      exact h2
    | false =>
      rw [Bool.eq_false_iff]
      intro hc
      obtain ⟨h1, h2⟩ := (isUnder_iff _ _).mp hc
      rw [mapMdx_length rel h] at h1
      rw [take_mapMdx d rel h1] at h2
      have hu : isUnder d rel = true := (isUnder_iff _ _).mpr ⟨h1, h2⟩
      rw [hcmp] at hu
      cases hu

theorem buildLoop_pruned (root : FsNode) (ig : List String → Bool)
    (render : String → String) (d : List String) (hne : d ≠ []) (hig : ig d = true) :
    ∀ (fuel : Nat) (stack : List (List String)) (acc : List OutAction),
      (∀ p ∈ stack, isUnder d p = false) →
      (∀ b ∈ acc, isUnder d (actRel b) = false) →
      ∀ b ∈ buildLoop root ig render fuel stack acc, isUnder d (actRel b) = false := by
  intro fuel
  induction fuel with
  | zero =>
    intro stack acc _ hacc b hb
    simp only [buildLoop] at hb
    exact hacc b hb
  | succ fuel ih =>
    intro stack acc hst hacc b hb
    cases stack with
    | nil =>
      simp only [buildLoop] at hb
      exact hacc b hb
    | cons cur rest =>
      have hcur := hst cur (List.mem_cons_self _ _)
      have hrest : ∀ p ∈ rest, isUnder d p = false :=
        fun p hp => hst p (List.mem_cons_of_mem _ hp)
      simp only [buildLoop] at hb
      cases hl : lookup cur root with
      | none =>
        simp only [hl] at hb
        exact ih rest acc hrest hacc b hb
      | some node =>
        simp only [hl] at hb
        by_cases hguard : (!cur.isEmpty && ig cur) = true
        · rw [if_pos hguard] at hb
          exact ih rest acc hrest hacc b hb
        · rw [if_neg hguard] at hb
          have hcur_ne_d : cur ≠ d := by
            intro he
            subst he
            apply hguard
            cases cur with
            | nil => exact absurd rfl hne
            | cons x xs => simp [hig]
          cases node with
          | dir cs =>
            refine ih _ _ ?_ ?_ b hb
            · intro p hp
              rcases List.mem_append.mp hp with hp1 | hp2
              · rw [List.mem_reverse] at hp1
                obtain ⟨cpair, _, rfl⟩ := List.mem_map.mp hp1
                exact isUnder_child d cur cpair.1 hcur_ne_d hcur
              · exact hrest p hp2
            · intro b2 hb2
              rcases List.mem_append.mp hb2 with h1 | h2
              · exact hacc b2 h1
              · simp only [List.mem_singleton] at h2
                subst h2
                exact hcur
          | file content =>
            dsimp only at hb
            by_cases hmdx : strEndsWith (lastSeg cur) ".mdx" = true
            · rw [if_pos hmdx] at hb
              refine ih rest _ hrest ?_ b hb
              intro b2 hb2
              rcases List.mem_append.mp hb2 with h1 | h2
              · exact hacc b2 h1
              · simp only [List.mem_singleton] at h2
                subst h2
                show isUnder d (mapMdx cur) = false
                rw [isUnder_mapMdx d cur hne]
                exact hcur
            · rw [if_neg hmdx] at hb
              refine ih rest _ hrest ?_ b hb
              intro b2 hb2
              rcases List.mem_append.mp hb2 with h1 | h2
              · exact hacc b2 h1
              · simp only [List.mem_singleton] at h2
                subst h2
                exact hcur

/-- C4: whenever the ignore matcher matches a (non-root) path `d`, no output
action of a build materializes anything strictly inside `d` — whatever the
matcher says about the individual children: a matched directory is skipped
(line 177's `continue`) before its children are pushed (lines 230-233), so
the subtree is pruned before descent.  Holds for every tree, matcher,
renderer and fuel. -/
theorem ignored_dir_pruned (root : FsNode) (ig : List String → Bool)
    (render : String → String) (fuel : Nat) (d : List String)
    (hne : d ≠ []) (hig : ig d = true) :
    ∀ b ∈ createSiteB fuel root ig render, isUnder d (actRel b) = false := by
  intro b hb
  refine buildLoop_pruned root ig render d hne hig fuel [[]] [] ?_ ?_ b hb
  · intro p hp
    simp only [List.mem_singleton] at hp
    subst hp
    exact isUnder_nil d
  · intro b2 hb2
    simp at hb2

theorem ignored_dir_pruned_witness :
    isUnder ["secret"] (actRel (OutAction.copyA ["a.txt"] "y")) = false :=
  ignored_dir_pruned prunedTree prunedIg (fun s => s) 10 ["secret"]
    (by decide) (by decide) (OutAction.copyA ["a.txt"] "y") (by decide)

theorem buildLoop_actions (root : FsNode) (ig : List String → Bool)
    (render : String → String) :
    ∀ (fuel : Nat) (stack : List (List String)) (acc : List OutAction),
      (∀ b ∈ acc, ActionOK root ig render b) →
      ∀ b ∈ buildLoop root ig render fuel stack acc, ActionOK root ig render b := by
  intro fuel
  induction fuel with
  | zero =>
    intro stack acc hacc b hb
    simp only [buildLoop] at hb
    exact hacc b hb
  | succ fuel ih =>
    intro stack acc hacc b hb
    cases stack with
    | nil =>
      simp only [buildLoop] at hb
      exact hacc b hb
    | cons cur rest =>
      simp only [buildLoop] at hb
      cases hl : lookup cur root with
      | none =>
        simp only [hl] at hb
        exact ih rest acc hacc b hb
      | some node =>
        simp only [hl] at hb
        by_cases hguard : (!cur.isEmpty && ig cur) = true
        · rw [if_pos hguard] at hb
          exact ih rest acc hacc b hb
        · rw [if_neg hguard] at hb
          have hguard2 : cur = [] ∨ ig cur = false := by
            cases cur with
            | nil => exact Or.inl rfl
            | cons x xs =>
              right
              by_contra hig2
              apply hguard
              rw [Bool.not_eq_false] at hig2
              simp [hig2]
          cases node with
          | dir cs =>
            refine ih _ _ ?_ b hb
            intro b2 hb2
            rcases List.mem_append.mp hb2 with h1 | h2
            · exact hacc b2 h1
            · simp only [List.mem_singleton] at h2
              subst h2
              exact ⟨⟨cs, hl⟩, hguard2⟩
          | file content =>
            dsimp only at hb
            by_cases hmdx : strEndsWith (lastSeg cur) ".mdx" = true
            · rw [if_pos hmdx] at hb
              refine ih rest _ ?_ b hb
              intro b2 hb2
              rcases List.mem_append.mp hb2 with h1 | h2
              · exact hacc b2 h1
              · simp only [List.mem_singleton] at h2
                subst h2
                exact ⟨cur, content, hl, hmdx, hguard2, rfl, rfl⟩
            · rw [if_neg hmdx] at hb
              refine ih rest _ ?_ b hb
              intro b2 hb2
              rcases List.mem_append.mp hb2 with h1 | h2
              · exact hacc b2 h1
              · simp only [List.mem_singleton] at h2
                subst h2
                exact ⟨content, hl, Bool.eq_false_iff.mpr hmdx, hguard2, rfl⟩

/-- C3 counterexample: a file literally named `.mdx` is a Document by the
code's own test (`currentPath.endsWith(".mdx")`), yet its output basename is
`.mdx.html`, not the `.html` that "strip the `.mdx` extension and append
`.html`" prescribes — Node's `path.parse` gives a dotfile an empty `ext`, so
`path.format({ ..., base: '', ext: '.html' })` keeps the whole name. -/
theorem bare_mdx_name_cex :
    createSiteB 4 bareMdxTree defaultMatcher (fun s => s)
      = [OutAction.mkdirA [], OutAction.htmlA [".mdx.html"] "<!DOCTYPE html>\nX"]
    ∧ strDropRight ".mdx" 4 ++ ".html" = ".html"
    ∧ (".mdx.html" : String) ≠ ".html" := by
  decide

/-- C3 amended: every action a build emits materializes a directory or a
non-document file at exactly its input-relative path, and a document (a file
whose basename ends in `.mdx`) at `mapMdx` of its path — which strips the
4-character `.mdx` extension and appends `.html`, preserving the base name
and all intermediate directory segments, for every basename except a bare
`.mdx`, which becomes `.mdx.html`.  On the example input
`{a.mdx, b.png, sub/c.mdx}` with no ignore file, the output is exactly
`{a.html, b.png, sub/c.html}` (plus the directories), with the rendered
documents wrapped in the `<!DOCTYPE html>` envelope. -/
theorem output_mapping_amended :
    (∀ (root : FsNode) (ig : List String → Bool) (render : String → String)
      (fuel : Nat), ∀ b ∈ createSiteB fuel root ig render, ActionOK root ig render b)
    ∧ (∀ (xs : List String) (s : String), s ≠ ".mdx" →
        mapMdx (xs ++ [s]) = xs ++ [strDropRight s 4 ++ ".html"])
    ∧ (∀ xs : List String, mapMdx (xs ++ [".mdx"]) = xs ++ [".mdx.html"])
    ∧ (∀ render : String → String,
        createSiteB 6 exampleTree defaultMatcher render =
          [ OutAction.mkdirA [],
            OutAction.mkdirA ["sub"],
            OutAction.htmlA ["sub", "c.html"] ("<!DOCTYPE html>\n" ++ render "C"),
            OutAction.copyA ["b.png"] "B",
            OutAction.htmlA ["a.html"] ("<!DOCTYPE html>\n" ++ render "A") ]) := by
  refine ⟨?_, ?_, ?_, ?_⟩
  · intro root ig render fuel b hb
    refine buildLoop_actions root ig render fuel [[]] [] ?_ b hb
    intro b2 hb2
    simp at hb2
  · intro xs s hs
    simp only [mapMdx, List.dropLast_concat, lastSeg, List.getLast?_concat,
      Option.getD_some, htmlOutName, if_neg hs]
  · intro xs
    simp only [mapMdx, List.dropLast_concat, lastSeg, List.getLast?_concat,
      Option.getD_some, htmlOutName, if_pos rfl]
    rfl
  · intro render
    rfl

theorem output_mapping_amended_witness :
    ActionOK exampleTree defaultMatcher (fun s => s) (OutAction.mkdirA []) :=
  output_mapping_amended.1 exampleTree defaultMatcher (fun s => s) 6
    (OutAction.mkdirA []) (by decide)

/-! ## Theorems: ignore rules (C5) -/

theorem splitCharAux_cons_self (sep : Char) (cs cur : List Char) :
    splitCharAux sep (sep :: cs) cur = cur.reverse :: splitCharAux sep cs [] := by
  simp [splitCharAux]

theorem splitCharAux_cons_ne (sep c : Char) (h : c ≠ sep) (cs cur : List Char) :
    splitCharAux sep (c :: cs) cur = splitCharAux sep cs (c :: cur) := by
  simp [splitCharAux, h]

theorem splitCharAux_append (sep : Char) (l1 l2 cur : List Char) :
    splitCharAux sep (l1 ++ sep :: l2) cur
      = splitCharAux sep l1 cur ++ splitCharAux sep l2 [] := by
  induction l1 generalizing cur with
  | nil =>
    rw [List.nil_append, splitCharAux_cons_self]
    rfl
  | cons c cs ih =>
    by_cases hc : c = sep
    · subst hc
      rw [List.cons_append, splitCharAux_cons_self, splitCharAux_cons_self, ih,
        List.cons_append]
    · rw [List.cons_append, splitCharAux_cons_ne sep c hc, splitCharAux_cons_ne sep c hc,
        ih]

theorem splitChar_append (sep : Char) (a b : String) :
    splitChar sep (a ++ String.mk [sep] ++ b) = splitChar sep a ++ splitChar sep b := by
  unfold splitChar
  have hdata : (a ++ String.mk [sep] ++ b).data = a.data ++ (sep :: b.data) := by
    rw [String.data_append, String.data_append, List.append_assoc]
    rfl
  rw [hdata, splitCharAux_append, List.map_append]

theorem parseRules_append (l1 l2 : List String) :
    parseRules (l1 ++ l2) = parseRules l1 ++ parseRules l2 :=
  List.filterMap_append l1 l2 parseRule

theorem getIgnore_append (u : String) :
    getIgnore (some u) = getIgnore none ++ parseRules (splitChar '\n' u) := by
  unfold getIgnore getIgnoreContent
  have h1 : DEFAULT_IGNORES ++ ("\n" ++ u)
      = DEFAULT_IGNORES ++ String.mk ['\n'] ++ u := by
    rw [String.append_assoc]
  rw [h1, splitChar_append, parseRules_append]
  dsimp only
  rw [String.append_empty]

theorem foldl_no_match (p : List String) (rs : List IgRule) (acc : Bool)
    (h : ∀ r ∈ rs, ruleMatches r p = false) :
    List.foldl (igStep p) acc rs = acc := by
  induction rs generalizing acc with
  | nil => rfl
  | cons r rs ih =>
    simp only [List.foldl_cons]
    have hr := h r (List.mem_cons_self _ _)
    rw [show igStep p acc r = acc from by simp [igStep, hr]]
    exact ih acc (fun r2 hr2 => h r2 (List.mem_cons_of_mem _ hr2))

/-- C5: `getIgnore` compiles the default patterns followed by the user
ignore-file contents, in that order (the user text is appended after
`DEFAULT_IGNORES` at lines 106-110 before the single `ig.add` at line 112);
consequently, for any path that the default rules match, a user negation
rule matching that path — with no later user rule matching it again — makes
the compiled matcher return false, un-ignoring it. -/
theorem user_negation_overrides_default (u : String) (p : List String)
    (r1 r2 : List IgRule) (b : String)
    (hsplit : parseRules (splitChar '\n' u) = r1 ++ IgRule.negP b :: r2)
    (hmatch : bodyMatches b p = true)
    (hafter : ∀ r ∈ r2, ruleMatches r p = false)
    (_hdef : igMatches (getIgnore none) p = true) :
    getIgnore (some u) = getIgnore none ++ parseRules (splitChar '\n' u)
    ∧ igMatches (getIgnore (some u)) p = false := by
  refine ⟨getIgnore_append u, ?_⟩
  rw [getIgnore_append u, hsplit]
  simp only [igMatches]
  rw [← List.append_assoc, List.foldl_append, List.foldl_cons]
  rw [show igStep p (List.foldl (igStep p) false (getIgnore none ++ r1)) (IgRule.negP b)
      = false from by simp [igStep, ruleMatches, ruleBody, hmatch]]
  exact foldl_no_match p r2 false hafter

theorem user_negation_overrides_default_witness :
    igMatches (getIgnore (some "!package.json")) ["package.json"] = false :=
  (user_negation_overrides_default "!package.json" ["package.json"] [] []
    "package.json" (by decide) (by decide) (by decide) (by decide)).2

/-! ## Theorems: dev server (C7, C9) -/

/-- C7: for a request path (every HTTP request path starts with `/`), the
trailing-slash middleware responds with the 301 redirect to the same path
with a separator appended exactly when the path has no file extension and
does not already end in a separator.  The `1 < req.path.length` guard
excludes nothing extra: a slash-initial path that does not end in `/` has
length at least 2. -/
theorem trailing_slash_redirect_iff (p : String) (hroot : p.data.head? = some '/') :
    trailingSlashMw p = MwStep.redirect (p ++ "/")
      ↔ (strEndsWith p "/" = false ∧ nodeExtname p = "") := by
  constructor
  · intro h
    unfold trailingSlashMw at h
    by_cases hd : redirectDecision p = true
    · unfold redirectDecision at hd
      simp only [Bool.and_eq_true, Bool.not_eq_true', beq_iff_eq, decide_eq_true_eq] at hd
      exact ⟨hd.1.2, hd.2⟩
    · rw [if_neg hd] at h
      cases h
  · rintro ⟨h1, h2⟩
    have hlen : 1 < p.length := by
      obtain ⟨cs⟩ := p
      cases cs with
      | nil => simp at hroot
      | cons c rest =>
        simp only [String.data, List.head?, Option.some.injEq] at hroot
        subst hroot
        cases rest with
        | nil => exact absurd h1 (by decide)
        | cons c2 rest2 =>
          show 1 < (String.mk ('/' :: c2 :: rest2)).data.length
          simp
    have hd : redirectDecision p = true := by
      unfold redirectDecision
      simp [hlen, h1, h2]
    unfold trailingSlashMw
    rw [if_pos hd]

theorem trailing_slash_redirect_iff_witness :
    trailingSlashMw "/docs" = MwStep.redirect ("/docs" ++ "/") :=
  (trailing_slash_redirect_iff "/docs" (by decide)).mpr ⟨by decide, by decide⟩

/-- C9: the root path `/` is never answered with a 301 — the middleware
guard requires the path length to exceed 1 — and the redirect is decided
before any file lookup: whenever the guard holds, the response is the
redirect regardless of the asset table and the 404 configuration, i.e.
whether or not a corresponding output directory exists. -/
theorem root_path_never_redirected :
    (∀ (assets : String → Option String) (err404 : Option String) (loc : String),
      handleRequest assets err404 "/" ≠ HttpResp.movedR loc)
    ∧ (∀ p : String, redirectDecision p = true →
        ∀ (assets assets2 : String → Option String) (e1 e2 : Option String),
          handleRequest assets e1 p = HttpResp.movedR (p ++ "/")
          ∧ handleRequest assets2 e2 p = handleRequest assets e1 p) := by
  constructor
  · intro assets err404 loc
    unfold handleRequest trailingSlashMw
    rw [if_neg (by decide : ¬ redirectDecision "/" = true)]
    cases assets "/" <;> simp
  · intro p hp assets assets2 e1 e2
    unfold handleRequest trailingSlashMw
    rw [if_pos hp]
    exact ⟨rfl, rfl⟩

theorem root_path_never_redirected_witness :
    handleRequest (fun _ => none) none "/docs" = HttpResp.movedR ("/docs" ++ "/") :=
  (root_path_never_redirected.2 "/docs" (by decide)
    (fun _ => none) (fun _ => none) none none).1

/-! ## Theorems: port negotiation (C8) and the port flag (C10) -/

theorem portSearch_found (avail : Nat → Bool) (maxp : Nat) :
    ∀ n f cur : Nat, n + 1 ≤ f →
      (∀ i, i < n → avail (cur + i) = false) →
      avail (cur + n) = true → cur + n ≤ maxp →
      portSearch avail f cur maxp = ((cur + n : Nat) : Int) := by
  intro n
  induction n with
  | zero =>
    intro f cur hf h0 ha hle
    obtain ⟨f2, rfl⟩ : ∃ f2, f = f2 + 1 := ⟨f - 1, by omega⟩
    simp only [portSearch]
    rw [if_pos (by omega : cur ≤ maxp)]
    rw [if_pos (by simpa [isPortAvailable] using ha)]
    simp
  | succ n ih =>
    intro f cur hf h0 ha hle
    obtain ⟨f2, rfl⟩ : ∃ f2, f = f2 + 1 := ⟨f - 1, by omega⟩
    simp only [portSearch]
    rw [if_pos (by omega : cur ≤ maxp)]
    have hcur : avail cur = false := by simpa using h0 0 (by omega)
    rw [if_neg (by simp [isPortAvailable, hcur])]
    have h0s : ∀ i, i < n → avail (cur + 1 + i) = false := by
      intro i hi
      rw [show cur + 1 + i = cur + (i + 1) from by omega]
      exact h0 (i + 1) (by omega)
    have has : avail (cur + 1 + n) = true := by
      rw [show cur + 1 + n = cur + (n + 1) from by omega]
      exact ha
    have hres := ih f2 (cur + 1) (by omega) h0s has (by omega)
    rw [hres]
    congr 1
    omega

theorem portSearch_exhausted (avail : Nat → Bool) (maxp : Nat) :
    ∀ f cur : Nat, (∀ q, cur ≤ q → q ≤ maxp → avail q = false) →
      portSearch avail f cur maxp = -1 := by
  intro f
  induction f with
  | zero => intro cur _; rfl
  | succ f ih =>
    intro cur h
    simp only [portSearch]
    by_cases hc : cur ≤ maxp
    · rw [if_pos hc, if_neg (by simp [isPortAvailable, h cur (Nat.le_refl cur) hc])]
      exact ih (cur + 1) (fun q hq1 hq2 => h q (by omega) hq2)
    · rw [if_neg hc]

/-- C8: `getAvailablePort` probes the ports sequentially from `startPort` to
`maxPort` inclusive: when the first `n` ports are occupied and port
`startPort + n` is free and within range, it returns `startPort + n` (the
first bindable port); when every port in the range is occupied it returns
`-1`; and each probe's listener is closed before its promise resolves with
the port's availability. -/
theorem port_probe_spec :
    (∀ (avail : Nat → Bool) (startPort maxPort n : Nat),
      (∀ i, i < n → avail (startPort + i) = false) →
      avail (startPort + n) = true → startPort + n ≤ maxPort →
      getAvailablePort avail startPort maxPort = ((startPort + n : Nat) : Int))
    ∧ (∀ (avail : Nat → Bool) (startPort maxPort : Nat),
      (∀ q, startPort ≤ q → q ≤ maxPort → avail q = false) →
      getAvailablePort avail startPort maxPort = -1)
    ∧ (∀ (avail : Nat → Bool) (port : Nat), ∃ pre post,
      probeEvents avail port = pre ++ ProbeEvent.closeE :: post
      ∧ ProbeEvent.resolveE (avail port) ∈ post) := by
  refine ⟨?_, ?_, ?_⟩
  · intro avail s m n h0 ha hle
    unfold getAvailablePort
    exact portSearch_found avail m n (m + 1 - s) s (by omega) h0 ha hle
  · intro avail s m h
    exact portSearch_exhausted avail m (m + 1 - s) s h
  · intro avail port
    cases ha : avail port with
    | true =>
      exact ⟨[ProbeEvent.listenE port, ProbeEvent.listeningE], [ProbeEvent.resolveE true],
        by simp [probeEvents, ha], by simp [ha]⟩
    | false =>
      exact ⟨[ProbeEvent.listenE port, ProbeEvent.errorE], [ProbeEvent.resolveE false],
        by simp [probeEvents, ha], by simp [ha]⟩

theorem port_probe_spec_witness :
    getAvailablePort (fun p => decide (p = 3001)) 3000 3002 = ((3000 + 1 : Nat) : Int)
    ∧ getAvailablePort (fun _ => false) 3000 3002 = -1 :=
  ⟨port_probe_spec.1 (fun p => decide (p = 3001)) 3000 3002 1
      (fun i hi => by
        have h0 : i = 0 := by omega
        subst h0
        decide)
      (by decide) (by decide),
    port_probe_spec.2.1 (fun _ => false) 3000 3002 (fun q _ _ => rfl)⟩

/-- C10 counterexample: `--port=-1` parses to the integer `-1`, which the
`port === -1` check (line 361) turns into the "could not find any available
ports" configuration error even though the flag was supplied — and even
though every port is in fact free (the same oracle with no flag yields port
3000).  So the provided-flag path can also produce that error, and an
integer flag value is not always used directly. -/
theorem port_flag_minus_one_cex :
    portSection ["--port=-1"] (fun _ => true) = PortOutcome.errNoPorts
    ∧ portSection [] (fun _ => true) = PortOutcome.okP 3000 := by
  decide

/-- C10 amended: when a `--port` flag is present the probe range is never
consulted (the outcome is independent of which ports are free), and a flag
whose value parses to an integer `n ≠ -1` is used directly as the port;
but the value `-1` (`--port=-1`) takes the `port === -1` branch and yields
the no-available-ports configuration error, so that error is not exclusive
to the absent-flag path. -/
theorem port_flag_behavior :
    (∀ (rawArgs : List String) (avail avail2 : Nat → Bool),
      (rawArgs.find? (fun v => strStartsWith v "--port")).isSome = true →
      portSection rawArgs avail = portSection rawArgs avail2)
    ∧ (∀ (rawArgs : List String) (a : String) (avail : Nat → Bool) (n : Int),
      rawArgs.find? (fun v => strStartsWith v "--port") = some a →
      jsNumber (splitEqSecond a) = JsNumV.intV n → n ≠ -1 →
      portSection rawArgs avail = PortOutcome.okP n) := by
  constructor
  · intro rawArgs avail avail2 hfind
    unfold portSection
    cases hf : rawArgs.find? (fun v => strStartsWith v "--port") with
    | none =>
      rw [hf] at hfind
      simp at hfind
    | some a => simp only [hf]
  · intro rawArgs a avail n hf hnum hne
    unfold portSection
    simp only [hf, hnum]
    dsimp only [portCheck]
    rw [if_neg hne]

theorem port_flag_behavior_witness :
    portSection ["--port=8080"] (fun _ => false) = PortOutcome.okP 8080 :=
  port_flag_behavior.2 ["--port=8080"] "--port=8080" (fun _ => false) 8080
    (by decide) (by decide) (by decide)

end HostMdx
